import Mathlib

/-!
Verification development for the voxkit voice-agent framework.

Shallow embedding of the core components named by the specification:
`AudioPipeline` (src/core/audio-pipeline.ts), `ConversationManager` and
`LeadExtractor` (src/core/lead-extractor.ts), and the `VoxAgent`
error/reconnect policy (src/index.ts).  JavaScript arrays become `List`,
JavaScript strings become `String`/`List Char`, JS numbers used for audio
arithmetic become `ℚ`, and the stateful pieces become explicit
state-passing functions.  Regular expressions used by the extractor are
embedded as executable backtracking matchers that follow the concrete
patterns of the source character by character.
-/

namespace VoxKit

/-- JavaScript `Array.prototype.slice(start)` with a single (possibly
negative) integer argument: a negative start counts from the end and is
clamped at 0, a non-negative start is clamped at the length.  Note that
in JavaScript `-0 === 0`, so `slice(-0)` is `slice(0)` (the whole
array); this is reproduced here because the source calls
`slice(-this.config.maxMessages)` and `slice(-count)`. -/
def jsSliceStart {α : Type} (l : List α) (start : Int) : List α :=
  l.drop (if start < 0 then max ((l.length : Int) + start) 0
          else min start (l.length : Int)).toNat

/-! ## AudioPipeline (src/core/audio-pipeline.ts)

The pipeline state consists of the chunk buffer (`audioBuffer`), the
streaming flag and the running byte counter (`sampleCount`).  Audio
bytes are modelled as `Nat`s; a chunk is a `List Nat`. -/

structure AudioPipelineConfig where
  sampleRate : ℚ
  bufferDurationMs : ℚ
  deriving DecidableEq

structure AudioPipeline where
  audioBuffer : List (List Nat)
  isStreaming : Bool
  sampleCount : Nat
  deriving DecidableEq

/-- `calculateBufferDuration()`: `(sampleCount / 2 / sampleRate) * 1000`
(bytesPerSample = 2 for 16-bit PCM). -/
def calculateBufferDuration (cfg : AudioPipelineConfig) (p : AudioPipeline) : ℚ :=
  ((p.sampleCount : ℚ) / 2) / cfg.sampleRate * 1000

/-- `flushBuffer()`: `null` when the buffer is empty; otherwise the
chunks are copied consecutively (via `combined.set(chunk, offset)` at
the running offset) into one combined array, the buffer and counter are
cleared, and the combined bytes are returned (they are also emitted as
the "buffer" event). -/
def flushBuffer (p : AudioPipeline) : Option (List Nat) × AudioPipeline :=
  if p.audioBuffer = [] then
    (none, p)
  else
    let combined := p.audioBuffer.foldl (fun acc chunk => acc ++ chunk) []
    (some combined, { p with audioBuffer := [], sampleCount := 0 })

/-- The buffer-append part of `processAudioChunk` (push the chunk,
add its length to `sampleCount`). -/
def pushChunk (p : AudioPipeline) (chunk : List Nat) : AudioPipeline :=
  { p with audioBuffer := p.audioBuffer ++ [chunk],
           sampleCount := p.sampleCount + chunk.length }

/-- `processAudioChunk(chunk)`: dropped when not streaming; otherwise
the chunk is buffered, the "chunk" event fires, and the buffer is
flushed once the buffered duration reaches `bufferDurationMs`. -/
def processAudioChunk (cfg : AudioPipelineConfig) (p : AudioPipeline)
    (chunk : List Nat) : AudioPipeline :=
  if p.isStreaming = false then p
  else
    let p1 := pushChunk p chunk
    if cfg.bufferDurationMs ≤ calculateBufferDuration cfg p1 then
      (flushBuffer p1).2
    else p1

/-- Feeding a whole sequence of chunks through `processAudioChunk`. -/
def processChunks (cfg : AudioPipelineConfig) (p : AudioPipeline)
    (cs : List (List Nat)) : AudioPipeline :=
  cs.foldl (processAudioChunk cfg) p

/-- Decidable check that none of the chunks `cs`, fed in order from
state `p`, reaches the auto-flush threshold (so all of them stay held
in the buffer). -/
def noAutoFlush (cfg : AudioPipelineConfig) : AudioPipeline → List (List Nat) → Bool
  | _, [] => true
  | p, c :: rest =>
    let p1 := pushChunk p c
    decide (calculateBufferDuration cfg p1 < cfg.bufferDurationMs) && noAutoFlush cfg p1 rest

/-! ## Conversation data model (src/types.ts) -/

/-- `ConversationMessage['role']`. -/
inductive Role where
  | system
  | user
  | assistant
  | function
  deriving DecidableEq

/-- A value inside a `Record<string, unknown>` metadata bag, as used by
the manager (string / number / `undefined` entries suffice for the
transcript metadata built by `addTranscript`). -/
inductive MetaValue where
  | str (s : String)
  | num (q : ℚ)
  | undef
  deriving DecidableEq

/-- A metadata object, modelled as an association list of entries. -/
def Metadata := List (String × MetaValue)

instance : DecidableEq Metadata := by
  unfold Metadata
  infer_instance

/-- `ConversationMessage` from src/types.ts. -/
structure ConversationMessage where
  role : Role
  content : String
  timestamp : Option Nat
  metadata : Option Metadata
  deriving DecidableEq

/-- `TranscriptSegment` from src/types.ts (`timestamp` is not read by
the manager; confidence is a JS number, modelled as `ℚ`). -/
structure TranscriptSegment where
  id : String
  text : String
  isFinal : Bool
  timestamp : Nat
  speaker : Option String
  confidence : Option ℚ
  deriving DecidableEq

/-- `ConversationState` from src/types.ts. -/
structure ConversationState where
  id : String
  messages : List ConversationMessage
  isActive : Bool
  startedAt : Nat
  lastActivityAt : Nat
  metadata : Metadata
  deriving DecidableEq

/-! ## ConversationManager (src/core/lead-extractor.ts, second file part)

Value model: the manager's `this.state` is passed explicitly, `Date.now()`
becomes a `now : Nat` argument, and the events emitted by an operation
are returned alongside the new state. -/

structure ConversationManagerConfig where
  maxMessages : Nat
  maxConversationDuration : Nat
  silenceTimeoutMs : Nat
  enableMetadata : Bool
  deriving DecidableEq

/-- Events a manager operation can emit (only the ones the claims are
about: "message" and "transcript"). -/
inductive ManagerEvent where
  | message (m : ConversationMessage)
  | transcript (s : TranscriptSegment)
  deriving DecidableEq

/-- The trim step of `addMessage`: when the configured maximum is
exceeded, keep `slice(-maxMessages)`. -/
def trimStep (cfg : ConversationManagerConfig)
    (msgs : List ConversationMessage) : List ConversationMessage :=
  if cfg.maxMessages < msgs.length then
    jsSliceStart msgs (-(cfg.maxMessages : Int))
  else msgs

/-- `addMessage(role, content, metadata?)`: silently rejected when the
conversation is inactive; otherwise appends a timestamped message
(metadata only kept when `enableMetadata`), trims to the most recent
`maxMessages` via `slice(-maxMessages)` when the maximum is exceeded,
and emits a "message" event. -/
def addMessage (cfg : ConversationManagerConfig) (st : ConversationState)
    (role : Role) (content : String) (metadata : Option Metadata) (now : Nat) :
    ConversationState × List ManagerEvent :=
  if st.isActive = false then (st, [])
  else
    let msg : ConversationMessage :=
      { role := role, content := content, timestamp := some now,
        metadata := if cfg.enableMetadata then metadata else none }
    let msgs := trimStep cfg (st.messages ++ [msg])
    ({ st with messages := msgs, lastActivityAt := now }, [.message msg])

/-- The metadata object `addTranscript` passes to `addMessage` for a
final segment: `{ transcriptId, confidence, speaker }`. -/
def transcriptMeta (seg : TranscriptSegment) : Metadata :=
  [(("transcriptId" : String), .str seg.id),
   (("confidence" : String),
     match seg.confidence with
     | some q => .num q
     | none => .undef),
   (("speaker" : String),
     match seg.speaker with
     | some s => .str s
     | none => .undef)]

/-- `addTranscript(segment)`: ignored when inactive; a final segment is
added as a user message carrying the transcript metadata, an interim one
is not persisted; in both cases the "transcript" event fires. -/
def addTranscript (cfg : ConversationManagerConfig) (st : ConversationState)
    (seg : TranscriptSegment) (now : Nat) :
    ConversationState × List ManagerEvent :=
  if st.isActive = false then (st, [])
  else
    let (st1, evs) :=
      if seg.isFinal then
        addMessage cfg st .user seg.text (some (transcriptMeta seg)) now
      else (st, [])
    (st1, evs ++ [.transcript seg])

/-- `getMessages()` (the returned array is a fresh copy; reference-level
behaviour is treated separately in the `RefModel` section). -/
def getMessages (st : ConversationState) : List ConversationMessage :=
  st.messages

/-- `getLastMessages(count)`: `this.state.messages.slice(-count)`. -/
def getLastMessages (st : ConversationState) (count : Nat) : List ConversationMessage :=
  jsSliceStart st.messages (-(count : Int))

/-- Input of one `addMessage` call (its arguments plus the `Date.now()`
value observed during the call). -/
structure AddInput where
  role : Role
  content : String
  metadata : Option Metadata
  now : Nat
  deriving DecidableEq

/-- The message object `addMessage` constructs for an input. -/
def mkMessage (cfg : ConversationManagerConfig) (i : AddInput) : ConversationMessage :=
  { role := i.role, content := i.content, timestamp := some i.now,
    metadata := if cfg.enableMetadata then i.metadata else none }

/-- A whole sequence of `addMessage` calls. -/
def addAll (cfg : ConversationManagerConfig) (st : ConversationState)
    (inputs : List AddInput) : ConversationState :=
  inputs.foldl (fun s i => (addMessage cfg s i.role i.content i.metadata i.now).1) st

/-! ## VoxAgent error handling (src/index.ts)

Only the fields `handleError` and `connect` read or write are modelled:
the connected flag, the retry counter, its ceiling and the base delay.
A scheduled reconnect (`setTimeout(..., delay)`) is returned as
`some delay`. -/

structure VoxAgentState where
  isConnected : Bool
  reconnectAttempts : Nat
  maxReconnectAttempts : Nat
  reconnectDelay : Nat
  deriving DecidableEq

/-- `handleError(error, context)`: logs and emits, then — only when the
agent is marked connected and the retry counter is below the ceiling —
increments the counter and schedules one reconnect attempt after
`reconnectDelay * reconnectAttempts` (the incremented counter). -/
def handleError (s : VoxAgentState) : VoxAgentState × Option Nat :=
  if s.isConnected = true ∧ s.reconnectAttempts < s.maxReconnectAttempts then
    let a := s.reconnectAttempts + 1
    ({ s with reconnectAttempts := a }, some (s.reconnectDelay * a))
  else (s, none)

/-- State after `n` consecutive errors handled by `handleError`. -/
def applyErrors (s : VoxAgentState) : Nat → VoxAgentState
  | 0 => s
  | n + 1 => applyErrors (handleError s).1 n

/-- The list of reconnects scheduled over `n` consecutive errors. -/
def handleErrorTrace (s : VoxAgentState) : Nat → List (Option Nat)
  | 0 => []
  | n + 1 => (handleError s).2 :: handleErrorTrace (handleError s).1 n

/-- The error path of `connect()`: when the provider fails, the `catch`
block runs `handleError(error, 'connect')` and then re-throws to the
caller; on success the agent is marked connected and the retry counter
reset.  The returned `Except` is the caller-visible outcome and the
`Option Nat` the reconnect schedule produced by the call. -/
def connectStep (s : VoxAgentState) (providerOk : Bool) :
    Except Unit Unit × VoxAgentState × Option Nat :=
  if providerOk then
    (.ok (), { s with isConnected := true, reconnectAttempts := 0 }, none)
  else
    let (s1, sched) := handleError s
    (.error (), s1, sched)

/-! ## Regex machinery

Executable embeddings of the concrete regular expressions of
`LeadExtractor.patterns` (src/core/lead-extractor.ts, lines 23-38),
with JavaScript semantics: leftmost match, greedy quantifiers with
backtracking, `/i` case insensitivity where flagged, and the
`lastIndex` statefulness of a `/g`-flagged regex used with `test()`. -/

/-- JS regex word character (`\b` is a transition between word and
non-word): `[A-Za-z0-9_]`. -/
def isWordChar (c : Char) : Bool := c.isAlpha || c.isDigit || c = '_'

/-- JS `\s` (whitespace class). -/
def jsSpace (c : Char) : Bool :=
  c = ' ' || c = '\t' || c = '\n' || c = '\r' ||
  c.val = 11 || c.val = 12 || c.val = 160 || c.val = 0x1680 ||
  (0x2000 ≤ c.val && c.val ≤ 0x200a) ||
  c.val = 0x2028 || c.val = 0x2029 || c.val = 0x202f ||
  c.val = 0x205f || c.val = 0x3000 || c.val = 0xfeff

/-- Length of the longest prefix of `cs` all of whose characters
satisfy `p` (a greedy character-class run). -/
def takeRun (p : Char → Bool) : List Char → Nat
  | [] => 0
  | c :: cs => if p c then takeRun p cs + 1 else 0

/-- Whether the character at index `i` of `s` is a word character
(out-of-range counts as non-word). -/
def wordAt (s : List Char) (i : Nat) : Bool :=
  match s.get? i with
  | some c => isWordChar c
  | none => false

/-- JS `\b` at position `i` of `s`. -/
def wordBoundary (s : List Char) (i : Nat) : Bool :=
  (if i = 0 then false else wordAt s (i - 1)) != wordAt s i

/-- Leftmost-first scan: try `f` at positions `i, i+1, ...` for `fuel`
attempts, returning the first success (how a JS regex engine searches
for a match from a given start index). -/
def scanFrom {α : Type} (f : Nat → Option α) : Nat → Nat → Option α
  | _, 0 => none
  | i, fuel + 1 =>
    match f i with
    | some a => some a
    | none => scanFrom f (i + 1) fuel

/-! ### The email pattern (with `/g`)

`\b[A-Za-z0-9._%+-]+@[A-Za-z0-9.-]+\.[A-Z|a-z]{2,}\b` -/

def emailLocalChar (c : Char) : Bool :=
  c.isAlpha || c.isDigit || c = '.' || c = '_' || c = '%' || c = '+' || c = '-'

def emailDomainChar (c : Char) : Bool :=
  c.isAlpha || c.isDigit || c = '.' || c = '-'

/-- `[A-Z|a-z]`: upper-case letters, the literal `|`, lower-case letters. -/
def emailTldChar (c : Char) : Bool := c.isAlpha || c = '|'

/-- Greedy `[A-Z|a-z]{2,}\b` tail: try run lengths from the argument
down to 2, requiring a word boundary after the run; returns the end
index.  `tstart` is where the run starts in `s`. -/
def emailTldEndAt (s : List Char) (tstart : Nat) : Nat → Option Nat
  | 0 => none
  | c + 1 =>
    if 2 ≤ c + 1 ∧ wordBoundary s (tstart + (c + 1)) then some (tstart + (c + 1))
    else emailTldEndAt s tstart c

/-- Greedy `[A-Za-z0-9.-]+\.` followed by the TLD tail: try domain run
lengths from the argument down to 1 (the JS engine backtracks the
greedy `+` from longest to shortest), requiring a literal `.` right
after the run.  `dstart` is where the domain starts in `s`. -/
def emailDomainEndAt (s : List Char) (dstart : Nat) : Nat → Option Nat
  | 0 => none
  | b + 1 =>
    match
      (if s.get? (dstart + (b + 1)) = some '.' then
        let tstart := dstart + (b + 1) + 1
        emailTldEndAt s tstart (takeRun emailTldChar (s.drop tstart))
      else none)
    with
    | some e => some e
    | none => emailDomainEndAt s dstart b

/-- Attempt to match the email pattern at position `i` of `s`,
returning the end index of the match.  The local part needs no
backtracking: `@` is not in its class, so only the maximal run can be
followed by `@`. -/
def matchEmailAt (s : List Char) (i : Nat) : Option Nat :=
  if wordBoundary s i then
    let a := takeRun emailLocalChar (s.drop i)
    if 1 ≤ a ∧ s.get? (i + a) = some '@' then
      let dstart := i + a + 1
      emailDomainEndAt s dstart (takeRun emailDomainChar (s.drop dstart))
    else none
  else none

/-- `exec` of the email regex from a given start index: the leftmost
match whose start is at or after `start`, as `(start, end)` indices. -/
def emailExecFrom (s : List Char) (start : Nat) : Option (Nat × Nat) :=
  scanFrom (fun i => (matchEmailAt s i).map (fun e => (i, e))) start (s.length + 1 - start)

/-- `this.patterns.email.test(email)` where the pattern carries the `/g`
flag: the search starts at the regex object's `lastIndex`; on success
`lastIndex` becomes the match end, on failure it is reset to 0.
Returns the boolean together with the new `lastIndex`. -/
def emailTestJs (email : String) (lastIndex : Nat) : Bool × Nat :=
  match emailExecFrom email.data lastIndex with
  | some (_, e) => (true, e)
  | none => (false, 0)

/-- `text.match(this.patterns.email)` reduced to its first element
(first match wins in the source); with `/g`, `match` always leaves the
regex's `lastIndex` at 0. -/
def firstEmailMatch (t : String) : Option String :=
  (emailExecFrom t.data 0).map (fun be => ⟨(t.data.drop be.1).take (be.2 - be.1)⟩)

/-! ### The phone pattern (with `/g`)

`(\+?1?[\s.-]?\(?\d{3}\)?[\s.-]?\d{3}[\s.-]?\d{4})` — a sequence of
optional single characters and fixed-length digit runs. -/

/-- One piece of such a pattern: an optional single character of a
class, or exactly `n` characters of a class. -/
inductive PItem where
  | opt (p : Char → Bool)
  | cls (p : Char → Bool) (n : Nat)

/-- Backtracking matcher for a list of pattern pieces against a prefix
of `cs`; greedy on the optionals (take the character first, retry
without it on downstream failure).  Returns the number of characters
consumed. -/
def matchItems : List PItem → List Char → Option Nat
  | [], _ => some 0
  | .opt _ :: rest, [] => matchItems rest []
  | .opt p :: rest, c :: cs =>
    if p c then
      match matchItems rest cs with
      | some n => some (n + 1)
      | none => matchItems rest (c :: cs)
    else matchItems rest (c :: cs)
  | .cls p n :: rest, cs =>
    if (cs.take n).length = n ∧ (cs.take n).all p then
      (matchItems rest (cs.drop n)).map (fun m => m + n)
    else none

/-- `[\s.-]`. -/
def phoneSepChar (c : Char) : Bool := jsSpace c || c = '.' || c = '-'

def phonePattern : List PItem :=
  [.opt (fun c => c = '+'), .opt (fun c => c = '1'), .opt phoneSepChar,
   .opt (fun c => c = '('), .cls Char.isDigit 3, .opt (fun c => c = ')'),
   .opt phoneSepChar, .cls Char.isDigit 3, .opt phoneSepChar,
   .cls Char.isDigit 4]

/-- `text.match(this.patterns.phone)` reduced to its first element
(first match wins in the source). -/
def firstPhoneMatch (t : String) : Option String :=
  scanFrom
    (fun i => (matchItems phonePattern (t.data.drop i)).map
      (fun n => ((⟨(t.data.drop i).take n⟩ : String))))
    0 (t.data.length + 1)

/-- Analysis predicate: no character accepted by the piece's class is
`c` (used to show where `+` can occur in a phone match). -/
def itemAvoids (c : Char) : PItem → Prop
  | .opt p => p c = false
  | .cls p _ => p c = false

/-- Analysis predicate: the piece's class only accepts digits (true of
every `opt` piece vacuously). -/
def itemClsDigit : PItem → Prop
  | .opt _ => True
  | .cls p _ => ∀ c, p c = true → c.isDigit = true

/-- The number of characters a `cls` piece always consumes. -/
def itemDigitFloor : PItem → Nat
  | .opt _ => 0
  | .cls _ n => n

/-! ### Name patterns (`/i`, no `/g`)

The five `nameIndicators` plus the greeting fallback.  Under `/i` the
classes `[A-Z]` and `[a-z]` both match any ASCII letter, so a captured
word is a maximal letter run of length at least 2, and the optional
second word `(?:\s+[A-Z][a-z]+)?` is taken greedily. -/

/-- The apostrophe character (U+0027), used by the literal
alternatives of the name patterns. -/
def apos : Char := Char.ofNat 39

/-- Case-insensitive literal: consume `lit` (case-insensitively) from
the front of `cs`, returning the rest. -/
def ciLit : List Char → List Char → Option (List Char)
  | [], cs => some cs
  | _ :: _, [] => none
  | l :: ls, c :: cs => if l.toLower = c.toLower then ciLit ls cs else none

/-- `\s+`: at least one whitespace character, consumed greedily. -/
def wsPlus (cs : List Char) : Option (List Char) :=
  let n := takeRun jsSpace cs
  if 1 ≤ n then some (cs.drop n) else none

/-- `[A-Z][a-z]+` under `/i`: a maximal letter run of length ≥ 2,
returned together with the rest. -/
def nameWord (cs : List Char) : Option (List Char × List Char) :=
  let n := takeRun (fun c => c.isAlpha) cs
  if 2 ≤ n then some (cs.take n, cs.drop n) else none

/-- The capture `([A-Z][a-z]+(?:\s+[A-Z][a-z]+)?)` under `/i`: one
word, greedily extended by whitespace and a second word when present. -/
def captureName (cs : List Char) : Option (List Char) := do
  let (w1, r1) ← nameWord cs
  let wn := takeRun jsSpace r1
  if 1 ≤ wn then
    match nameWord (r1.drop wn) with
    | some (w2, _) => some (w1 ++ r1.take wn ++ w2)
    | none => some w1
  else some w1

/-- Pattern 1 at a position: `my name(?:'s| is)\s+(capture)`. -/
def namePat1At (cs : List Char) : Option (List Char) :=
  match ciLit (("my name" : String).data) cs with
  | none => none
  | some r =>
    let cont := fun r2 => (wsPlus r2).bind captureName
    match (ciLit [apos, 's'] r).bind cont with
    | some c => some c
    | none => (ciLit ((" is" : String).data) r).bind cont

/-- Pattern 2 at a position: `i(?:'m| am)\s+(capture)`. -/
def namePat2At (cs : List Char) : Option (List Char) :=
  match ciLit (("i" : String).data) cs with
  | none => none
  | some r =>
    let cont := fun r2 => (wsPlus r2).bind captureName
    match (ciLit [apos, 'm'] r).bind cont with
    | some c => some c
    | none => (ciLit ((" am" : String).data) r).bind cont

/-- Pattern 3 at a position: `this is\s+(capture)`. -/
def namePat3At (cs : List Char) : Option (List Char) :=
  (ciLit (("this is" : String).data) cs).bind
    (fun r => (wsPlus r).bind captureName)

/-- Pattern 4 at a position: `call me\s+(capture)`. -/
def namePat4At (cs : List Char) : Option (List Char) :=
  (ciLit (("call me" : String).data) cs).bind
    (fun r => (wsPlus r).bind captureName)

/-- Pattern 5 at a position: `i(?:'m| am) called\s+(capture)`. -/
def namePat5At (cs : List Char) : Option (List Char) :=
  match ciLit (("i" : String).data) cs with
  | none => none
  | some r =>
    let cont := fun r2 =>
      (ciLit ((" called" : String).data) r2).bind
        (fun r3 => (wsPlus r3).bind captureName)
    match (ciLit [apos, 'm'] r).bind cont with
    | some c => some c
    | none => (ciLit ((" am" : String).data) r).bind cont

/-- JS `String.prototype.trim()`: strip whitespace (and line
terminators, which `jsSpace` includes) from both ends. -/
def trimChars (cs : List Char) : List Char :=
  ((cs.dropWhile jsSpace).reverse.dropWhile jsSpace).reverse

/-- Unanchored leftmost application of a positional matcher (how a JS
regex without `^` searches: position 0, then 1, ...). -/
def scanPattern (f : List Char → Option (List Char)) (s : List Char) :
    Option (List Char) :=
  scanFrom (fun i => f (s.drop i)) 0 (s.length + 1)

/-- The greeting fallback `^(?:hi|hello|hey)\s+([A-Z][a-z]+)` (anchored,
single-word capture); alternatives tried in order. -/
def greetingName (s : List Char) : Option (List Char) :=
  let cont := fun r => (wsPlus r).bind (fun r2 => (nameWord r2).map (fun w => w.1))
  match (ciLit (("hi" : String).data) s).bind cont with
  | some c => some c
  | none =>
    match (ciLit (("hello" : String).data) s).bind cont with
    | some c => some c
    | none => (ciLit (("hey" : String).data) s).bind cont

/-- `extractName(text)`: the `nameIndicators` patterns in order, first
matching pattern wins, then the greeting fallback; the capture is
`trim`med. -/
def extractName (t : String) : Option String :=
  let s := t.data
  let cap :=
    match scanPattern namePat1At s with
    | some c => some c
    | none =>
      match scanPattern namePat2At s with
      | some c => some c
      | none =>
        match scanPattern namePat3At s with
        | some c => some c
        | none =>
          match scanPattern namePat4At s with
          | some c => some c
          | none =>
            match scanPattern namePat5At s with
            | some c => some c
            | none => greetingName s
  cap.map (fun c => ((⟨trimChars c⟩ : String)))

/-! ### Company patterns (`/i`, no `/g`) -/

/-- `[^,.]`. -/
def nonCommaDot (c : Char) : Bool := !(c = ',' || c = '.')

/-- The capture `([A-Z][^,.]+)` under `/i`: a letter followed by a
maximal nonempty run of non-comma, non-period characters. -/
def captureCompany (cs : List Char) : Option (List Char) :=
  match cs with
  | [] => none
  | c :: rest =>
    if c.isAlpha then
      let n := takeRun nonCommaDot rest
      if 1 ≤ n then some (c :: rest.take n) else none
    else none

/-- Company pattern 1 at a position: `work (?:at|for)\s+([A-Z][^,.]+)`. -/
def companyPat1At (cs : List Char) : Option (List Char) :=
  match ciLit (("work " : String).data) cs with
  | none => none
  | some r =>
    let cont := fun r2 => (wsPlus r2).bind captureCompany
    match (ciLit (("at" : String).data) r).bind cont with
    | some c => some c
    | none => (ciLit (("for" : String).data) r).bind cont

/-- Company pattern 2 at a position: `company is\s+([A-Z][^,.]+)`. -/
def companyPat2At (cs : List Char) : Option (List Char) :=
  (ciLit (("company is" : String).data) cs).bind
    (fun r => (wsPlus r).bind captureCompany)

/-- One business-entity suffix alternative followed by the greedy
optional dot (`(?:inc|llc|corp|company|co\.|ltd)\.?`): the consumed
source characters and the rest. -/
def suffixCont (cs : List Char) : Option (List Char) :=
  let tryOne := fun (lit : List Char) =>
    match ciLit lit cs with
    | some r =>
      let consumed := cs.take lit.length
      match r with
      | '.' :: _ => some (consumed ++ ['.'])
      | _ => some consumed
    | none => none
  match tryOne (("inc" : String).data) with
  | some c => some c
  | none =>
    match tryOne (("llc" : String).data) with
    | some c => some c
    | none =>
      match tryOne (("corp" : String).data) with
      | some c => some c
      | none =>
        match tryOne (("company" : String).data) with
        | some c => some c
        | none =>
          match tryOne (("co." : String).data) with
          | some c => some c
          | none => tryOne (("ltd" : String).data)

/-- Backtracking over the greedy `[^,.]+` run (longest first, down to
length 1): find a run length after which a business-entity suffix
matches. -/
def companyRunSuffix (c : Char) (rest : List Char) : Nat → Option (List Char)
  | 0 => none
  | k + 1 =>
    match suffixCont (rest.drop (k + 1)) with
    | some suf => some (c :: rest.take (k + 1) ++ suf)
    | none => companyRunSuffix c rest k

/-- The capture `([A-Z][^,.]+(?:inc|llc|corp|company|co\.|ltd)\.?)`
under `/i`. -/
def captureCompanySuffixed (cs : List Char) : Option (List Char) :=
  match cs with
  | [] => none
  | c :: rest =>
    if c.isAlpha then companyRunSuffix c rest (takeRun nonCommaDot rest)
    else none

/-- Company pattern 3 at a position:
`from\s+([A-Z][^,.]+(?:inc|llc|corp|company|co\.|ltd)\.?)`. -/
def companyPat3At (cs : List Char) : Option (List Char) :=
  (ciLit (("from" : String).data) cs).bind
    (fun r => (wsPlus r).bind captureCompanySuffixed)

/-- `extractCompany(text)`: the `companyIndicators` patterns in order,
first matching pattern wins; the capture is `trim`med. -/
def extractCompany (t : String) : Option String :=
  let s := t.data
  let cap :=
    match scanPattern companyPat1At s with
    | some c => some c
    | none =>
      match scanPattern companyPat2At s with
      | some c => some c
      | none => scanPattern companyPat3At s
  cap.map (fun c => ((⟨trimChars c⟩ : String)))

/-! ## LeadExtractor (src/core/lead-extractor.ts, first file part)

The extractor's mutable state is the accumulated `currentLead` map plus
the `lastIndex` of the `/g`-flagged email regex object (the phone
regex, though `/g`-flagged, is only ever used through `match`, which
always leaves its `lastIndex` at 0, so it carries no observable
state). -/

/-- `Partial<LeadInfo>`: the accumulated field map (`none` = key
absent). -/
structure PartialLead where
  name : Option String
  email : Option String
  phone : Option String
  company : Option String
  notes : Option String
  deriving DecidableEq

def PartialLead.empty : PartialLead := ⟨none, none, none, none, none⟩

structure LeadConfidence where
  name : Option ℚ
  email : Option ℚ
  phone : Option ℚ
  deriving DecidableEq

/-- `LeadInfo` from src/types.ts. -/
structure LeadInfo where
  name : Option String
  email : Option String
  phone : Option String
  company : Option String
  notes : Option String
  confidence : LeadConfidence
  deriving DecidableEq

/-- `Required<LeadExtractorConfig>` (after constructor defaults).
Custom extractors are modelled as pure text→partial-fields functions;
it is assumed they do not set a key to an explicit `undefined`. -/
structure LeadExtractorConfig where
  minConfidence : ℚ
  extractOnEveryMessage : Bool
  extractOnConversationEnd : Bool
  customExtractors : List (String → PartialLead)

/-- The constructor defaults (`minConfidence: 0.7`, both flags true,
no custom extractors). -/
def defaultLeadExtractorConfig : LeadExtractorConfig :=
  ⟨(7/10 : ℚ), true, true, []⟩

/-- The extractor's mutable state. -/
structure LeadExtractor where
  currentLead : PartialLead
  emailLastIndex : Nat
  deriving DecidableEq

/-- A freshly constructed extractor. -/
def freshExtractor : LeadExtractor := ⟨PartialLead.empty, 0⟩

/-- `normalizePhone`'s first step, `phone.replace(/[^\d+]/g, '')`:
every character that is neither a digit nor a plus sign is removed
(note: the source keeps every `+`, not only a leading one). -/
def stripNonDigitPlus (m : List Char) : List Char :=
  m.filter (fun c => c.isDigit || c = '+')

/-- `normalizePhone(phone)`. -/
def normalizePhone (phone : String) : String :=
  let digits := stripNonDigitPlus phone.data
  if digits.length = 11 ∧ digits.head? = some '1' then ⟨'+' :: digits⟩
  else if digits.length = 10 then ⟨'+' :: '1' :: digits⟩
  else ⟨digits⟩

/-- `validatePhone(phone)`: 10 to 15 digits after removing all
non-digits. -/
def validatePhone (phone : String) : Bool :=
  let digits := (phone.data.filter Char.isDigit).length
  decide (10 ≤ digits ∧ digits ≤ 15)

/-- `buildLeadInfo()`: snapshot of the accumulated fields with freshly
computed confidence scores.  `validateEmail` calls `test()` on the
`/g`-flagged email regex, so it both reads and writes that regex's
`lastIndex`; the new `lastIndex` is returned alongside the snapshot. -/
def buildLeadInfo (ex : LeadExtractor) : LeadInfo × Nat :=
  let emailStep :=
    match ex.currentLead.email with
    | some e =>
      let te := emailTestJs e ex.emailLastIndex
      (some (if te.1 then (1 : ℚ) else (1/2 : ℚ)), te.2)
    | none => (none, ex.emailLastIndex)
  ({ name := ex.currentLead.name, email := ex.currentLead.email,
     phone := ex.currentLead.phone, company := ex.currentLead.company,
     notes := ex.currentLead.notes,
     confidence :=
       { name := if ex.currentLead.name.isSome then some (85/100 : ℚ) else none,
         email := emailStep.1,
         phone :=
           match ex.currentLead.phone with
           | some p => some (if validatePhone p then (1 : ℚ) else (1/2 : ℚ))
           | none => none } },
   emailStep.2)

/-- `hasMinimumInfo(lead)`: at least one of name/email/phone. -/
def hasMinimumInfo (lead : LeadInfo) : Bool :=
  decide (1 ≤ (if lead.name.isSome then 1 else 0) +
    (if lead.email.isSome then 1 else 0) +
    (if lead.phone.isSome then (1 : Nat) else 0))

/-- Object spread `{ ...old, ...upd }` over partial leads: a key
present in `upd` overwrites, an absent one leaves the old value. -/
def mergeLead (old upd : PartialLead) : PartialLead :=
  { name := upd.name.orElse (fun _ => old.name),
    email := upd.email.orElse (fun _ => old.email),
    phone := upd.phone.orElse (fun _ => old.phone),
    company := upd.company.orElse (fun _ => old.company),
    notes := upd.notes.orElse (fun _ => old.notes) }

/-- `Object.assign(updates, customData)` for one custom extractor
output: keys present in `customData` overwrite `updates`. -/
def assignPartial (upd custom : PartialLead) : PartialLead :=
  mergeLead upd custom

/-- `processMessage(message)`: non-user messages are ignored; for a
user message the built-in extractors run (email and phone via the two
`/g` regexes through `match`, which leaves the email regex's
`lastIndex` at 0, then name and company), custom extractors are merged
over the updates, the updates are merged onto the accumulated lead, a
snapshot is built (this is where `validateEmail` runs `test()` and
moves `lastIndex`), and the snapshot is returned (and emitted as the
"lead" event) iff it has minimum info and per-message extraction is
enabled. -/
def processMessage (cfg : LeadExtractorConfig) (ex : LeadExtractor)
    (message : ConversationMessage) : LeadExtractor × Option LeadInfo :=
  if message.role ≠ Role.user then (ex, none)
  else
    let text := message.content
    let updates : PartialLead :=
      { name := extractName text, email := firstEmailMatch text,
        phone := (firstPhoneMatch text).map normalizePhone,
        company := extractCompany text, notes := none }
    let updates := cfg.customExtractors.foldl
      (fun u f => assignPartial u (f text)) updates
    let merged := mergeLead ex.currentLead updates
    let built := buildLeadInfo { currentLead := merged, emailLastIndex := 0 }
    let ex2 : LeadExtractor := { currentLead := merged, emailLastIndex := built.2 }
    if hasMinimumInfo built.1 && cfg.extractOnEveryMessage then (ex2, some built.1)
    else (ex2, none)

/-- `reset()`: clears `currentLead`; the regex objects (and hence the
email regex's `lastIndex`) are untouched. -/
def resetExtractor (ex : LeadExtractor) : LeadExtractor :=
  { ex with currentLead := PartialLead.empty }

/-- The replay loop of `processConversation`: each message through
`processMessage`, keeping only the state. -/
def replayMessages (cfg : LeadExtractorConfig) (ex : LeadExtractor)
    (msgs : List ConversationMessage) : LeadExtractor :=
  msgs.foldl (fun e m => (processMessage cfg e m).1) ex

/-- `processConversation(state)`: reset, replay every message of the
history in order, then build the final snapshot, returned (and emitted)
iff it has minimum info. -/
def processConversation (cfg : LeadExtractorConfig) (ex : LeadExtractor)
    (state : ConversationState) : LeadExtractor × Option LeadInfo :=
  let ex1 := replayMessages cfg (resetExtractor ex) state.messages
  let built := buildLeadInfo ex1
  let ex2 : LeadExtractor := { ex1 with emailLastIndex := built.2 }
  if hasMinimumInfo built.1 then (ex2, some built.1) else (ex2, none)

/-- `getCurrentLead()`: just `buildLeadInfo()` (with its `lastIndex`
side effect on the email regex). -/
def getCurrentLead (ex : LeadExtractor) : LeadInfo × LeadExtractor :=
  let built := buildLeadInfo ex
  (built.1, { ex with emailLastIndex := built.2 })

/-! ### Claim-side definitions for C4 (phone normalization as the
specification words it) -/

/-- Formalisation of the claim's description of the stripping step:
"stripping all non-digit characters except a leading plus sign". -/
def claimStripPhone (m : List Char) : List Char :=
  match m with
  | [] => []
  | c :: rest =>
    if c = '+' then c :: rest.filter (fun c => c.isDigit)
    else (c :: rest).filter (fun c => c.isDigit)

/-- Formalisation of the claim's normalization cases: "an 11-digit
result starting with 1 gets a leading +; an exactly-10-digit result
gets +1 prepended; anything else passes through digits-only". -/
def claimNormalizePhone (m : List Char) : List Char :=
  let d := claimStripPhone m
  if d.length = 11 ∧ d.all (fun c => c.isDigit) ∧ d.head? = some '1' then '+' :: d
  else if d.length = 10 ∧ d.all (fun c => c.isDigit) then '+' :: '1' :: d
  else d

/-- The extractor state after processing the user message "My email is
a@b.com" (used to exhibit the statefulness of the email-confidence
computation): `validateEmail` ran during the message's own
`buildLeadInfo`, so the email regex's `lastIndex` is 7, the end of the
match inside "a@b.com". -/
def emailDemoState : LeadExtractor :=
  (processMessage defaultLeadExtractorConfig freshExtractor
    ⟨Role.user, ("My email is a@b.com" : String), none, none⟩).1

/-! ## Reference-level model of the manager getters (C9)

The value model above cannot express aliasing, so the three getters are
additionally modelled over an explicit store of JS arrays: an array
reference is an index into the store, `[...xs]` and `slice` allocate a
fresh array, and the object spread `{ ...this.state }` copies the
fields of the state object — including the messages array *reference*,
which is therefore shared between the returned copy and the manager. -/

namespace RefModel

/-- The JS heap, restricted to message arrays. -/
structure Store where
  arrays : List (List ConversationMessage)
  deriving DecidableEq

/-- Read the array behind a reference. -/
def readArr (st : Store) (r : Nat) : List ConversationMessage :=
  (st.arrays[r]?).getD []

/-- Allocate a fresh array and return its reference. -/
def alloc (st : Store) (a : List ConversationMessage) : Nat × Store :=
  (st.arrays.length, ⟨st.arrays ++ [a]⟩)

/-- A caller-side `push` through an array reference. -/
def pushArr (st : Store) (r : Nat) (m : ConversationMessage) : Store :=
  ⟨st.arrays.set r (readArr st r ++ [m])⟩

/-- The manager's own state: it holds its history through a reference. -/
structure Mgr where
  msgsRef : Nat
  isActive : Bool
  deriving DecidableEq

/-- The object `getState()` returns: `{ ...this.state }` copies the
scalar fields and the messages array reference. -/
structure StateCopy where
  msgsRef : Nat
  isActive : Bool
  deriving DecidableEq

/-- `getState()`. -/
def getState (mgr : Mgr) : StateCopy :=
  { msgsRef := mgr.msgsRef, isActive := mgr.isActive }

/-- `getMessages()`: `[...this.state.messages]` allocates a fresh
array holding the same entries. -/
def getMessages (mgr : Mgr) (st : Store) : Nat × Store :=
  alloc st (readArr st mgr.msgsRef)

/-- `getLastMessages(count)`: `slice` allocates a fresh array. -/
def getLastMessages (mgr : Mgr) (st : Store) (count : Nat) : Nat × Store :=
  alloc st (jsSliceStart (readArr st mgr.msgsRef) (-(count : Int)))

/-- The manager's internal history as observed by any subsequent
getter. -/
def history (mgr : Mgr) (st : Store) : List ConversationMessage :=
  readArr st mgr.msgsRef

end RefModel

/-! # Theorems -/

/-! ## Helper lemmas -/

/-- Folding `++` from an accumulator concatenates the chunks in order. -/
theorem foldl_append_eq_flatten (l : List (List Nat)) :
    ∀ acc : List Nat, l.foldl (fun a c => a ++ c) acc = acc ++ l.flatten := by
  induction l with
  | nil => intro acc; simp
  | cons c rest ih => intro acc; simp [ih, List.append_assoc]

/-- While streaming and below the auto-flush threshold, processing
chunks appends them to the buffer in arrival order and keeps
streaming. -/
theorem processChunks_buffer_append (cfg : AudioPipelineConfig) :
    ∀ (cs : List (List Nat)) (p : AudioPipeline), p.isStreaming = true →
      noAutoFlush cfg p cs = true →
      (processChunks cfg p cs).audioBuffer = p.audioBuffer ++ cs ∧
      (processChunks cfg p cs).isStreaming = true := by
  intro cs
  induction cs with
  | nil => intro p hs _; simp [processChunks, hs]
  | cons c rest ih =>
    intro p hs hn
    rw [noAutoFlush, Bool.and_eq_true] at hn
    obtain ⟨hlt, hrest⟩ := hn
    have hlt' : calculateBufferDuration cfg (pushChunk p c) < cfg.bufferDurationMs :=
      of_decide_eq_true hlt
    have hstep : processAudioChunk cfg p c = pushChunk p c := by
      unfold processAudioChunk
      rw [hs]
      simp only [Bool.true_eq_false, if_false]
      rw [if_neg (not_le_of_lt hlt')]
    have hps : (pushChunk p c).isStreaming = true := by
      simp [pushChunk, hs]
    have hih := ih (pushChunk p c) hps hrest
    have hfold : processChunks cfg p (c :: rest) =
        processChunks cfg (processAudioChunk cfg p c) rest := by
      simp [processChunks]
    rw [hfold, hstep]
    refine ⟨?_, hih.2⟩
    rw [hih.1]
    simp [pushChunk]

/-- C1: for every sequence of chunks processed while streaming and
still held in the buffer (no auto-flush fired), `flushBuffer()` returns
exactly the byte-for-byte concatenation of those chunks in arrival
order and clears the buffer; on an empty buffer (e.g. right after a
flush) it returns `null`. -/
theorem flushBuffer_returns_concatenation (cfg : AudioPipelineConfig)
    (p : AudioPipeline) (cs : List (List Nat))
    (hs : p.isStreaming = true) (hb : p.audioBuffer = [])
    (hn : noAutoFlush cfg p cs = true) :
    (processChunks cfg p cs).audioBuffer = cs ∧
    (flushBuffer (processChunks cfg p cs)).1 =
      (if cs = [] then none else some cs.flatten) ∧
    (flushBuffer (processChunks cfg p cs)).2.audioBuffer = [] ∧
    (flushBuffer (flushBuffer (processChunks cfg p cs)).2).1 = none := by
  obtain ⟨hbuf, _⟩ := processChunks_buffer_append cfg cs p hs hn
  rw [hb] at hbuf
  simp only [List.nil_append] at hbuf
  by_cases hcs : cs = []
  · subst hcs
    rw [flushBuffer, if_pos hbuf]
    simp [hbuf, flushBuffer]
  · have hflush : flushBuffer (processChunks cfg p cs) =
        (some cs.flatten, { processChunks cfg p cs with audioBuffer := [], sampleCount := 0 }) := by
      rw [flushBuffer, if_neg (by rw [hbuf]; exact hcs)]
      rw [hbuf, foldl_append_eq_flatten, List.nil_append]
    rw [hflush]
    refine ⟨hbuf, by simp [hcs], rfl, ?_⟩
    rw [flushBuffer]
    simp

/-- C1 witness: two chunks below the 100 ms window at 24 kHz. -/
theorem flushBuffer_returns_concatenation_witness :
    (flushBuffer (processChunks ⟨24000, 100⟩ ⟨[], true, 0⟩
      [[1, 2, 3], [4, 5, 6]])).1 = some [1, 2, 3, 4, 5, 6] := by
  have h := flushBuffer_returns_concatenation ⟨24000, 100⟩ ⟨[], true, 0⟩
    [[1, 2, 3], [4, 5, 6]] rfl rfl (by
      simp only [noAutoFlush, pushChunk, calculateBufferDuration, Bool.and_eq_true,
        decide_eq_true_eq]
      norm_num)
  have h2 := h.2.1
  simpa using h2

/-- C7: `addMessage` on an inactive (ended) conversation leaves the
state untouched (message count and history unchanged) and emits no
"message" event; the rejection is a silent return, not a throw. -/
theorem addMessage_inactive_rejected (cfg : ConversationManagerConfig)
    (st : ConversationState) (role : Role) (content : String)
    (metadata : Option Metadata) (now : Nat)
    (h : st.isActive = false) :
    addMessage cfg st role content metadata now = (st, []) := by
  unfold addMessage
  rw [h]
  simp

/-- C7 witness: a concrete ended conversation. -/
theorem addMessage_inactive_rejected_witness :
    addMessage ⟨100, 3600, 30000, true⟩
      ⟨("conv-1" : String), [], false, 0, 0, []⟩ Role.user
      ("Should be ignored" : String) none 7 =
    (⟨("conv-1" : String), [], false, 0, 0, []⟩, []) :=
  addMessage_inactive_rejected ⟨100, 3600, 30000, true⟩
    ⟨("conv-1" : String), [], false, 0, 0, []⟩ Role.user
    ("Should be ignored" : String) none 7 rfl

/-- C10: `getLastMessages(0)` returns the entire history (because
`slice(-0)` is `slice(0)`), and for `count ≥ 1` it returns exactly the
last `min count length` messages in order. -/
theorem getLastMessages_zero_and_positive (st : ConversationState)
    (count : Nat) (hc : 1 ≤ count) :
    getLastMessages st 0 = st.messages ∧
    getLastMessages st count =
      st.messages.drop (st.messages.length - count) ∧
    (getLastMessages st count).length = min count st.messages.length := by
  refine ⟨?_, ?_, ?_⟩
  · simp [getLastMessages, jsSliceStart]
  · unfold getLastMessages jsSliceStart
    have hneg : (-(count : Int)) < 0 := by
      omega
    rw [if_pos hneg]
    congr 1
    omega
  · unfold getLastMessages jsSliceStart
    have hneg : (-(count : Int)) < 0 := by
      omega
    rw [if_pos hneg]
    rw [List.length_drop]
    omega

/-- C10 witness: three messages, `count = 2` (and the `count = 0`
conjunct evaluated as well). -/
theorem getLastMessages_zero_and_positive_witness :
    getLastMessages ⟨("c" : String),
        [⟨Role.user, ("a" : String), none, none⟩,
         ⟨Role.assistant, ("b" : String), none, none⟩,
         ⟨Role.user, ("d" : String), none, none⟩], true, 0, 0, []⟩ 0 =
      [⟨Role.user, ("a" : String), none, none⟩,
       ⟨Role.assistant, ("b" : String), none, none⟩,
       ⟨Role.user, ("d" : String), none, none⟩] ∧
    getLastMessages ⟨("c" : String),
        [⟨Role.user, ("a" : String), none, none⟩,
         ⟨Role.assistant, ("b" : String), none, none⟩,
         ⟨Role.user, ("d" : String), none, none⟩], true, 0, 0, []⟩ 2 =
      [⟨Role.assistant, ("b" : String), none, none⟩,
       ⟨Role.user, ("d" : String), none, none⟩] := by
  have h := getLastMessages_zero_and_positive ⟨("c" : String),
    [⟨Role.user, ("a" : String), none, none⟩,
     ⟨Role.assistant, ("b" : String), none, none⟩,
     ⟨Role.user, ("d" : String), none, none⟩], true, 0, 0, []⟩ 2 (by decide)
  refine ⟨h.1, ?_⟩
  rw [h.2.1]
  rfl

/-! ## C8: reconnection policy -/

/-- Once the retry counter has reached the ceiling, `handleError` is a
no-op that schedules nothing. -/
theorem handleError_exhausted (s : VoxAgentState)
    (h : s.maxReconnectAttempts ≤ s.reconnectAttempts) :
    handleError s = (s, none) := by
  unfold handleError
  rw [if_neg]
  intro hcon
  exact absurd hcon.2 (not_lt_of_le h)

/-- While connected and under the ceiling, each error bumps the counter
by one (stated field-wise). -/
theorem applyErrors_fields (n : Nat) : ∀ s : VoxAgentState,
    s.isConnected = true → s.reconnectAttempts + n ≤ s.maxReconnectAttempts →
    (applyErrors s n).reconnectAttempts = s.reconnectAttempts + n ∧
    (applyErrors s n).maxReconnectAttempts = s.maxReconnectAttempts := by
  induction n with
  | zero => intro s _ _; simp [applyErrors]
  | succ k ih =>
    intro s hc hle
    have hlt : s.reconnectAttempts < s.maxReconnectAttempts := by omega
    have hstep : handleError s =
        ({ s with reconnectAttempts := s.reconnectAttempts + 1 },
          some (s.reconnectDelay * (s.reconnectAttempts + 1))) := by
      unfold handleError
      rw [if_pos ⟨hc, hlt⟩]
    have hred : applyErrors s (k + 1) = applyErrors (handleError s).1 k := rfl
    rw [hred, hstep]
    obtain ⟨h1, h3⟩ := ih { s with reconnectAttempts := s.reconnectAttempts + 1 }
      hc (show s.reconnectAttempts + 1 + k ≤ s.maxReconnectAttempts by omega)
    constructor
    · rw [h1]
      show s.reconnectAttempts + 1 + k = s.reconnectAttempts + (k + 1)
      omega
    · rw [h3]

/-- C8: while connected with the retry counter below the ceiling, an
error schedules exactly one reconnect after `reconnectDelay × attempt
number`; once a number of consecutive failures equal to the ceiling has
occurred, no further reconnect is ever scheduled; and an error during
the initial `connect()` (not previously connected) schedules nothing
and is re-thrown to the caller. -/
theorem reconnect_policy :
    (∀ s : VoxAgentState, s.isConnected = true →
      s.reconnectAttempts < s.maxReconnectAttempts →
      handleError s = ({ s with reconnectAttempts := s.reconnectAttempts + 1 },
        some (s.reconnectDelay * (s.reconnectAttempts + 1)))) ∧
    (∀ s : VoxAgentState, s.maxReconnectAttempts ≤ s.reconnectAttempts →
      ∀ n, handleErrorTrace s n = List.replicate n none) ∧
    (∀ ceiling delay : Nat, ∀ n,
      handleErrorTrace (applyErrors ⟨true, 0, ceiling, delay⟩ ceiling) n =
        List.replicate n none) ∧
    (∀ s : VoxAgentState, s.isConnected = false →
      connectStep s false = (.error (), s, none)) := by
  have hnone : ∀ s : VoxAgentState, s.maxReconnectAttempts ≤ s.reconnectAttempts →
      ∀ n, handleErrorTrace s n = List.replicate n none := by
    intro s hle n
    induction n with
    | zero => simp [handleErrorTrace]
    | succ k ih =>
      rw [handleErrorTrace, handleError_exhausted s hle, List.replicate_succ]
      simpa using ih
  refine ⟨?_, hnone, ?_, ?_⟩
  · intro s hc hlt
    unfold handleError
    rw [if_pos ⟨hc, hlt⟩]
  · intro ceiling delay n
    obtain ⟨h1, h3⟩ := applyErrors_fields ceiling ⟨true, 0, ceiling, delay⟩ rfl
      (show 0 + ceiling ≤ ceiling by omega)
    refine hnone _ ?_ n
    rw [h1, h3]
    show ceiling ≤ 0 + ceiling
    omega
  · intro s hcon
    unfold connectStep handleError
    rw [if_neg (by simp), if_neg]
    intro hc
    rw [hcon] at hc
    exact absurd hc.1 (by simp)

/-- C8 witness: default ceiling 5 and base delay 1000; a first error
while connected, exhaustion after 5 consecutive failures, and a failing
initial connect. -/
theorem reconnect_policy_witness :
    handleError ⟨true, 0, 5, 1000⟩ =
      ({ (⟨true, 0, 5, 1000⟩ : VoxAgentState) with reconnectAttempts := 0 + 1 },
        some (1000 * (0 + 1))) ∧
    handleErrorTrace (applyErrors ⟨true, 0, 5, 1000⟩ 5) 3 =
      List.replicate 3 none ∧
    connectStep ⟨false, 0, 5, 1000⟩ false =
      (.error (), ⟨false, 0, 5, 1000⟩, none) := by
  refine ⟨?_, ?_, ?_⟩
  · exact reconnect_policy.1 ⟨true, 0, 5, 1000⟩ rfl (by decide)
  · exact reconnect_policy.2.2.1 5 1000 3
  · exact reconnect_policy.2.2.2 ⟨false, 0, 5, 1000⟩ rfl

/-! ## C2: FIFO trim of addMessage -/

/-- `jsSliceStart` at a negative start `-m` (with `m ≥ 1`) keeps the
last `m` elements. -/
theorem jsSliceStart_neg {α : Type} (l : List α) (m : Nat) (h : 1 ≤ m) :
    jsSliceStart l (-(m : Int)) = l.drop (l.length - m) := by
  unfold jsSliceStart
  rw [if_pos (show (-(m : Int)) < 0 by omega)]
  congr 1
  omega

/-- What one trim step keeps: the last `maxM` entries (`Nat`
subtraction saturates, so short lists are kept whole). -/
def lastNKeep (maxM : Nat) (l : List ConversationMessage) : List ConversationMessage :=
  l.drop (l.length - maxM)

/-- For a positive maximum, `trimStep` is exactly `lastNKeep`. -/
theorem trimStep_eq_lastNKeep (cfg : ConversationManagerConfig)
    (h : 1 ≤ cfg.maxMessages) (l : List ConversationMessage) :
    trimStep cfg l = lastNKeep cfg.maxMessages l := by
  unfold trimStep lastNKeep
  by_cases hlt : cfg.maxMessages < l.length
  · rw [if_pos hlt, jsSliceStart_neg l cfg.maxMessages h]
  · rw [if_neg hlt]
    rw [Nat.sub_eq_zero_of_le (by omega), List.drop_zero]

/-- Keeping the last `maxM` twice over an extension is the same as
keeping them once at the end. -/
theorem lastNKeep_append (maxM : Nat) (l l₂ : List ConversationMessage) :
    lastNKeep maxM (lastNKeep maxM l ++ l₂) = lastNKeep maxM (l ++ l₂) := by
  unfold lastNKeep
  by_cases hL : maxM ≤ l.length
  · rw [List.drop_append_eq_append_drop, List.drop_append_eq_append_drop,
      List.drop_drop]
    congr 2
    all_goals simp only [List.length_append, List.length_drop]
    all_goals omega
  · have h0 : l.length - maxM = 0 := Nat.sub_eq_zero_of_le (by omega)
    rw [h0, List.drop_zero]

/-- `addMessage` on an active conversation: the new history and the
preserved activity flag. -/
theorem addMessage_active (cfg : ConversationManagerConfig)
    (st : ConversationState) (role : Role) (content : String)
    (metadata : Option Metadata) (now : Nat) (h : st.isActive = true) :
    (addMessage cfg st role content metadata now).1.messages =
      trimStep cfg (st.messages ++
        [⟨role, content, some now, if cfg.enableMetadata then metadata else none⟩]) ∧
    (addMessage cfg st role content metadata now).1.isActive = true := by
  unfold addMessage
  rw [h]
  simp [h]

/-- Folding a nonempty run of `addMessage` calls over an active
conversation keeps the last `maxMessages` of the whole extended
history. -/
theorem addAll_messages_ne (cfg : ConversationManagerConfig)
    (h1 : 1 ≤ cfg.maxMessages) :
    ∀ (inputs : List AddInput) (st : ConversationState), st.isActive = true →
      inputs ≠ [] →
      (addAll cfg st inputs).messages =
        lastNKeep cfg.maxMessages (st.messages ++ inputs.map (mkMessage cfg)) ∧
      (addAll cfg st inputs).isActive = true := by
  intro inputs
  induction inputs with
  | nil => intro st _ hne; exact absurd rfl hne
  | cons i rest ih =>
    intro st hact _
    have hstep := addMessage_active cfg st i.role i.content i.metadata i.now hact
    have hfold : addAll cfg st (i :: rest) =
        addAll cfg (addMessage cfg st i.role i.content i.metadata i.now).1 rest := by
      simp [addAll]
    rw [hfold]
    cases rest with
    | nil =>
      refine ⟨?_, ?_⟩
      · simp only [addAll, List.foldl_nil]
        rw [hstep.1, trimStep_eq_lastNKeep cfg h1]
        rfl
      · simp only [addAll, List.foldl_nil]
        exact hstep.2
    | cons j rest2 =>
      obtain ⟨hmsgs, hact2⟩ := ih _ hstep.2 (by simp)
      refine ⟨?_, hact2⟩
      rw [hmsgs, hstep.1, trimStep_eq_lastNKeep cfg h1, lastNKeep_append,
        List.append_assoc]
      rfl

/-- C2 (amended: the configured maximum is at least 1): appending more
than `maxMessages` messages to an active conversation leaves exactly
the most recent `maxMessages` of them in arrival order — FIFO, oldest
evicted first. -/
theorem addMessage_fifo_trim (cfg : ConversationManagerConfig)
    (st : ConversationState) (inputs : List AddInput)
    (h1 : 1 ≤ cfg.maxMessages) (hact : st.isActive = true)
    (h2 : cfg.maxMessages < inputs.length) :
    (addAll cfg st inputs).messages =
      (inputs.map (mkMessage cfg)).drop (inputs.length - cfg.maxMessages) := by
  have hne : inputs ≠ [] := by
    intro he
    rw [he] at h2
    simp at h2
  obtain ⟨hmsgs, _⟩ := addAll_messages_ne cfg h1 inputs st hact hne
  rw [hmsgs]
  unfold lastNKeep
  rw [List.drop_append_eq_append_drop,
    List.drop_eq_nil_of_le (by simp [List.length_append]; omega),
    List.nil_append]
  congr 1
  simp only [List.length_append, List.length_map]
  omega

/-- C2 counterexample to the unrestricted claim: with `maxMessages = 0`
(accepted by the config, `0 ?? 100` is `0`), one appended message is
more than `maxMessages`, yet the stored history is that message — not
the most recent 0 messages — because `slice(-0)` is `slice(0)` and
keeps the whole array. -/
theorem addMessage_fifo_trim_maxzero_counterexample :
    (addAll ⟨0, 3600, 30000, true⟩ ⟨("c" : String), [], true, 0, 0, []⟩
        [⟨Role.user, ("hello" : String), none, 1⟩]).messages =
      [⟨Role.user, ("hello" : String), some 1, none⟩] ∧
    (addAll ⟨0, 3600, 30000, true⟩ ⟨("c" : String), [], true, 0, 0, []⟩
        [⟨Role.user, ("hello" : String), none, 1⟩]).messages ≠
      (([⟨Role.user, ("hello" : String), none, 1⟩] : List AddInput).map
          (mkMessage ⟨0, 3600, 30000, true⟩)).drop
        (([⟨Role.user, ("hello" : String), none, 1⟩] : List AddInput).length - 0) := by
  constructor
  · decide
  · decide

/-- C2 witness: `maxMessages = 2`, four appended messages, the last two
retained. -/
theorem addMessage_fifo_trim_witness :
    (addAll ⟨2, 3600, 30000, true⟩ ⟨("c" : String), [], true, 0, 0, []⟩
        [⟨Role.user, ("m1" : String), none, 1⟩, ⟨Role.user, ("m2" : String), none, 2⟩,
         ⟨Role.user, ("m3" : String), none, 3⟩, ⟨Role.user, ("m4" : String), none, 4⟩]).messages =
      [⟨Role.user, ("m3" : String), some 3, none⟩,
       ⟨Role.user, ("m4" : String), some 4, none⟩] := by
  have h := addMessage_fifo_trim ⟨2, 3600, 30000, true⟩
    ⟨("c" : String), [], true, 0, 0, []⟩
    [⟨Role.user, ("m1" : String), none, 1⟩, ⟨Role.user, ("m2" : String), none, 2⟩,
     ⟨Role.user, ("m3" : String), none, 3⟩, ⟨Role.user, ("m4" : String), none, 4⟩]
    (by decide) rfl (by decide)
  rw [h]
  rfl

/-! ## C6: transcript segments -/

/-- A freshly appended message survives the trim step as the last
entry of the history. -/
theorem getLast?_trimStep_append (cfg : ConversationManagerConfig)
    (l : List ConversationMessage) (m : ConversationMessage) :
    (trimStep cfg (l ++ [m])).getLast? = some m := by
  unfold trimStep
  by_cases hlt : cfg.maxMessages < (l ++ [m]).length
  · rw [if_pos hlt]
    by_cases h0 : 1 ≤ cfg.maxMessages
    · rw [jsSliceStart_neg _ _ h0, List.drop_append_eq_append_drop]
      have hn : (l ++ [m]).length - cfg.maxMessages - l.length = 0 := by
        simp only [List.length_append, List.length_cons, List.length_nil]
        omega
      rw [hn, List.drop_zero]
      exact List.getLast?_concat _
    · have h00 : cfg.maxMessages = 0 := by omega
      rw [h00]
      have hz : jsSliceStart (l ++ [m]) (-((0 : Nat) : Int)) = l ++ [m] := by
        unfold jsSliceStart
        rw [show -((0 : Nat) : Int) = 0 by norm_num]
        rw [if_neg (by norm_num)]
        rw [min_eq_left (Int.natCast_nonneg _)]
        simp
      rw [hz]
      exact List.getLast?_concat l
  · rw [if_neg hlt]
    exact List.getLast?_concat l

/-- C6 (amended: the transcript metadata is carried when metadata
tracking is enabled, the default): while the conversation is active, a
non-final (interim) segment never enters `getMessages()`; a final
segment is always appended as a user message with the segment's text,
which carries `{transcriptId, confidence, speaker}` as metadata iff
`enableMetadata` is set. -/
theorem addTranscript_final_user_message (cfg : ConversationManagerConfig)
    (st : ConversationState) (seg : TranscriptSegment) (now : Nat)
    (hact : st.isActive = true) :
    (seg.isFinal = false →
      getMessages (addTranscript cfg st seg now).1 = getMessages st) ∧
    (seg.isFinal = true →
      getMessages (addTranscript cfg st seg now).1 =
        trimStep cfg (st.messages ++
          [⟨Role.user, seg.text, some now,
            if cfg.enableMetadata then some (transcriptMeta seg) else none⟩]) ∧
      (getMessages (addTranscript cfg st seg now).1).getLast? =
        some ⟨Role.user, seg.text, some now,
          if cfg.enableMetadata then some (transcriptMeta seg) else none⟩) := by
  constructor
  · intro hfin
    unfold addTranscript
    rw [hact, hfin]
    simp [getMessages]
  · intro hfin
    unfold addTranscript
    rw [hact, hfin]
    have hadd := addMessage_active cfg st Role.user seg.text
      (some (transcriptMeta seg)) now hact
    simp only [Bool.true_eq_false, if_false, if_true]
    constructor
    · exact hadd.1
    · show (addMessage cfg st Role.user seg.text (some (transcriptMeta seg)) now).1.messages.getLast? = _
      rw [hadd.1]
      exact getLast?_trimStep_append cfg st.messages _

/-- C6 counterexample to the metadata clause as stated: with
`enableMetadata = false` a final segment is appended, but its message
carries no metadata at all, in particular not the segment's id,
confidence and speaker. -/
theorem addTranscript_metadata_dropped_counterexample :
    (addTranscript ⟨100, 3600, 30000, false⟩ ⟨("c" : String), [], true, 0, 0, []⟩
        ⟨("seg-1" : String), ("I need help" : String), true, 5, none, some (9/10)⟩
        6).1.messages =
      [⟨Role.user, ("I need help" : String), some 6, none⟩] ∧
    (addTranscript ⟨100, 3600, 30000, false⟩ ⟨("c" : String), [], true, 0, 0, []⟩
        ⟨("seg-1" : String), ("I need help" : String), true, 5, none, some (9/10)⟩
        6).1.messages ≠
      [⟨Role.user, ("I need help" : String), some 6,
        some (transcriptMeta
          ⟨("seg-1" : String), ("I need help" : String), true, 5, none, some (9/10)⟩)⟩] := by
  constructor
  · decide
  · decide

/-- C6 witness: default config (metadata enabled); an interim segment
leaves the history empty while a final one is appended with the
transcript metadata. -/
theorem addTranscript_final_user_message_witness :
    getMessages (addTranscript ⟨100, 3600, 30000, true⟩
        ⟨("c" : String), [], true, 0, 0, []⟩
        ⟨("seg-2" : String), ("I nee" : String), false, 5, none, none⟩ 6).1 =
      getMessages ⟨("c" : String), [], true, 0, 0, []⟩ ∧
    (getMessages (addTranscript ⟨100, 3600, 30000, true⟩
        ⟨("c" : String), [], true, 0, 0, []⟩
        ⟨("seg-1" : String), ("I need help" : String), true, 5, some ("caller" : String),
          some (9/10)⟩ 6).1).getLast? =
      some ⟨Role.user, ("I need help" : String), some 6,
        if (true : Bool) then
          some (transcriptMeta ⟨("seg-1" : String), ("I need help" : String), true, 5,
            some ("caller" : String), some (9/10)⟩)
        else none⟩ := by
  constructor
  · exact (addTranscript_final_user_message ⟨100, 3600, 30000, true⟩
      ⟨("c" : String), [], true, 0, 0, []⟩
      ⟨("seg-2" : String), ("I nee" : String), false, 5, none, none⟩ 6 rfl).1 rfl
  · exact ((addTranscript_final_user_message ⟨100, 3600, 30000, true⟩
      ⟨("c" : String), [], true, 0, 0, []⟩
      ⟨("seg-1" : String), ("I need help" : String), true, 5, some ("caller" : String),
        some (9/10)⟩ 6 rfl).2 rfl).2

/-! ## C9: defensive copies and the shared getState array -/

/-- Pushing through a freshly allocated reference does not change what
any other (smaller) reference holds. -/
theorem pushArr_fresh_preserves (st : RefModel.Store)
    (a : List ConversationMessage) (m : ConversationMessage) (r : Nat)
    (h : r < st.arrays.length) :
    RefModel.readArr
        (RefModel.pushArr (RefModel.alloc st a).2 (RefModel.alloc st a).1 m) r =
      RefModel.readArr st r := by
  unfold RefModel.readArr RefModel.pushArr RefModel.alloc
  simp only
  rw [List.getElem?_set_ne (by omega)]
  rw [List.getElem?_append]
  rw [if_pos h]

/-- C9 (amended): `getMessages()` and `getLastMessages(n)` hand out
freshly allocated arrays — a caller-side `push` through the returned
reference leaves the manager's observable history untouched — whereas
`getState()` returns a shallow copy whose `messages` field is the
manager's own array reference. -/
theorem getters_return_fresh_arrays (mgr : RefModel.Mgr) (st : RefModel.Store)
    (m : ConversationMessage) (count : Nat)
    (h : mgr.msgsRef < st.arrays.length) :
    RefModel.history mgr
        (RefModel.pushArr (RefModel.getMessages mgr st).2
          (RefModel.getMessages mgr st).1 m) =
      RefModel.history mgr st ∧
    RefModel.history mgr
        (RefModel.pushArr (RefModel.getLastMessages mgr st count).2
          (RefModel.getLastMessages mgr st count).1 m) =
      RefModel.history mgr st ∧
    (RefModel.getMessages mgr st).1 ≠ mgr.msgsRef ∧
    (RefModel.getState mgr).msgsRef = mgr.msgsRef := by
  refine ⟨?_, ?_, ?_, rfl⟩
  · exact pushArr_fresh_preserves st _ m mgr.msgsRef h
  · exact pushArr_fresh_preserves st _ m mgr.msgsRef h
  · show st.arrays.length ≠ mgr.msgsRef
    omega

/-- C9 counterexample to the claim as stated: `getState()` returns
`{ ...this.state }`, whose `messages` field is the same array
reference the manager holds, so a caller `push` through the returned
state changes what every subsequent getter observes. -/
theorem getState_shared_array_counterexample :
    RefModel.history ⟨0, true⟩ ⟨[[]]⟩ = [] ∧
    RefModel.history ⟨0, true⟩
        (RefModel.pushArr ⟨[[]]⟩ (RefModel.getState ⟨0, true⟩).msgsRef
          ⟨Role.user, ("hi" : String), none, none⟩) =
      [⟨Role.user, ("hi" : String), none, none⟩] := by
  constructor
  · rfl
  · rfl

/-- C9 witness: a store with one message in the manager's array; a push
through the array returned by `getMessages` leaves the history as it
was. -/
theorem getters_return_fresh_arrays_witness :
    RefModel.history ⟨0, true⟩
        (RefModel.pushArr
          (RefModel.getMessages ⟨0, true⟩
            ⟨[[⟨Role.user, ("a" : String), none, none⟩]]⟩).2
          (RefModel.getMessages ⟨0, true⟩
            ⟨[[⟨Role.user, ("a" : String), none, none⟩]]⟩).1
          ⟨Role.user, ("b" : String), none, none⟩) =
      [⟨Role.user, ("a" : String), none, none⟩] := by
  have h := getters_return_fresh_arrays ⟨0, true⟩
    ⟨[[⟨Role.user, ("a" : String), none, none⟩]]⟩
    ⟨Role.user, ("b" : String), none, none⟩ 0 (by decide)
  rw [h.1]
  rfl

/-! ## C3: processConversation replays only the given history -/

/-- `processMessage` ignores non-user messages entirely. -/
theorem processMessage_nonuser (cfg : LeadExtractorConfig) (ex : LeadExtractor)
    (m : ConversationMessage) (hm : m.role ≠ Role.user) :
    processMessage cfg ex m = (ex, none) := by
  unfold processMessage
  rw [if_pos hm]

/-- On a user message, the incoming email-regex `lastIndex` is
irrelevant: `text.match` resets it to 0 before `validateEmail` runs. -/
theorem processMessage_user_lastIndex_irrelevant (cfg : LeadExtractorConfig)
    (lead : PartialLead) (li li' : Nat) (m : ConversationMessage)
    (hm : m.role = Role.user) :
    processMessage cfg ⟨lead, li⟩ m = processMessage cfg ⟨lead, li'⟩ m := by
  unfold processMessage
  have hni : ¬(m.role ≠ Role.user) := by
    rw [hm]
    simp
  rw [if_neg hni, if_neg hni]

theorem replayMessages_cons (cfg : LeadExtractorConfig) (ex : LeadExtractor)
    (m : ConversationMessage) (rest : List ConversationMessage) :
    replayMessages cfg ex (m :: rest) =
      replayMessages cfg (processMessage cfg ex m).1 rest := by
  simp [replayMessages]

/-- A history without user messages leaves the extractor untouched. -/
theorem replayMessages_nonuser (cfg : LeadExtractorConfig) :
    ∀ (ms : List ConversationMessage) (ex : LeadExtractor),
      (∀ m ∈ ms, m.role ≠ Role.user) → replayMessages cfg ex ms = ex := by
  intro ms
  induction ms with
  | nil => intro ex _; rfl
  | cons m rest ih =>
    intro ex hall
    rw [replayMessages_cons, processMessage_nonuser cfg ex m (hall m (by simp))]
    exact ih ex (fun x hx => hall x (by simp [hx]))

/-- Replaying a history from two states with equal accumulated leads:
the accumulated leads stay equal, and as soon as the history contains a
user message the whole states coincide. -/
theorem replayMessages_lastIndex_irrelevant (cfg : LeadExtractorConfig) :
    ∀ (ms : List ConversationMessage) (lead : PartialLead) (li li' : Nat),
      (replayMessages cfg ⟨lead, li⟩ ms).currentLead =
        (replayMessages cfg ⟨lead, li'⟩ ms).currentLead ∧
      ((∃ m ∈ ms, m.role = Role.user) →
        replayMessages cfg ⟨lead, li⟩ ms = replayMessages cfg ⟨lead, li'⟩ ms) := by
  intro ms
  induction ms with
  | nil =>
    intro lead li li'
    refine ⟨rfl, ?_⟩
    intro h
    simp at h
  | cons m rest ih =>
    intro lead li li'
    by_cases hm : m.role = Role.user
    · have heq := processMessage_user_lastIndex_irrelevant cfg lead li li' m hm
      rw [replayMessages_cons, replayMessages_cons, heq]
      exact ⟨rfl, fun _ => rfl⟩
    · rw [replayMessages_cons, replayMessages_cons,
        processMessage_nonuser cfg _ m hm, processMessage_nonuser cfg _ m hm]
      refine ⟨(ih lead li li').1, ?_⟩
      intro hex
      obtain ⟨x, hx, hrole⟩ := hex
      rcases List.mem_cons.mp hx with h1 | h1
      · exact absurd (h1 ▸ hrole) hm
      · exact (ih lead li li').2 ⟨x, h1, hrole⟩

theorem resetExtractor_eq (ex : LeadExtractor) :
    resetExtractor ex = ⟨PartialLead.empty, ex.emailLastIndex⟩ := rfl

/-- C3: `processConversation(S)` resets the accumulated fields and
replays only `S.messages`: its result is the same from any two prior
extractor states; accumulating "OldName" and then processing a history
containing only "My name is NewName" yields a lead whose name is
exactly "NewName" (no trace of "OldName"); and the call returns null
when the replayed snapshot has none of name/email/phone populated. -/
theorem processConversation_resets_and_replays :
    (∀ (cfg : LeadExtractorConfig) (ex ex' : LeadExtractor) (S : ConversationState),
      (processConversation cfg ex S).2 = (processConversation cfg ex' S).2) ∧
    ((processConversation defaultLeadExtractorConfig
        ⟨⟨some ("OldName" : String), none, none, none, none⟩, 0⟩
        ⟨("c" : String), [⟨Role.user, ("My name is NewName" : String), none, none⟩],
          false, 0, 0, []⟩).2 =
      some ⟨some ("NewName" : String), none, none, none, none,
        ⟨some (85/100 : ℚ), none, none⟩⟩) ∧
    (∀ (cfg : LeadExtractorConfig) (ex : LeadExtractor) (S : ConversationState),
      (replayMessages cfg (resetExtractor ex) S.messages).currentLead.name = none →
      (replayMessages cfg (resetExtractor ex) S.messages).currentLead.email = none →
      (replayMessages cfg (resetExtractor ex) S.messages).currentLead.phone = none →
      (processConversation cfg ex S).2 = none) := by
  refine ⟨?_, rfl, ?_⟩
  · intro cfg ex ex' S
    simp only [processConversation, resetExtractor_eq]
    by_cases hu : ∃ m ∈ S.messages, m.role = Role.user
    · rw [(replayMessages_lastIndex_irrelevant cfg S.messages PartialLead.empty
        ex.emailLastIndex ex'.emailLastIndex).2 hu]
    · have hall : ∀ m ∈ S.messages, m.role ≠ Role.user := by
        push_neg at hu
        exact hu
      rw [replayMessages_nonuser cfg S.messages _ hall,
        replayMessages_nonuser cfg S.messages _ hall]
      rfl
  · intro cfg ex S h1 h2 h3
    have hmin : hasMinimumInfo
        (buildLeadInfo (replayMessages cfg (resetExtractor ex) S.messages)).1 = false := by
      unfold hasMinimumInfo
      rw [(show (buildLeadInfo (replayMessages cfg (resetExtractor ex) S.messages)).1.name =
            none from h1),
        (show (buildLeadInfo (replayMessages cfg (resetExtractor ex) S.messages)).1.email =
            none from h2),
        (show (buildLeadInfo (replayMessages cfg (resetExtractor ex) S.messages)).1.phone =
            none from h3)]
      rfl
    simp only [processConversation]
    rw [hmin]
    simp

/-- C3 witness: an empty history yields null from any prior state. -/
theorem processConversation_resets_and_replays_witness :
    (processConversation defaultLeadExtractorConfig freshExtractor
      ⟨("c" : String), [], false, 0, 0, []⟩).2 = none :=
  processConversation_resets_and_replays.2.2 defaultLeadExtractorConfig freshExtractor
    ⟨("c" : String), [], false, 0, 0, []⟩ rfl rfl rfl

/-- C5: the email confidence is not a pure function of the accumulated
values.  After processing "My email is a@b.com" (a valid address, and
the snapshot built inside that call scores it 1.0), an immediate
`getCurrentLead()` scores the very same accumulated email 0.5 — the
`/g`-flagged email regex kept `lastIndex` = 7 from `validateEmail`'s
`test()` during the message, so the re-validation starts past the match
and fails — and a second identical `getCurrentLead()` scores it 1.0
again, the accumulated fields never changing in between. -/
theorem email_confidence_stateful_bug :
    emailDemoState.currentLead.email = some ("a@b.com" : String) ∧
    (processMessage defaultLeadExtractorConfig freshExtractor
        ⟨Role.user, ("My email is a@b.com" : String), none, none⟩).2.map
      (fun l => l.confidence.email) = some (some (1 : ℚ)) ∧
    (getCurrentLead emailDemoState).1.confidence.email = some (1/2 : ℚ) ∧
    (getCurrentLead (getCurrentLead emailDemoState).2).1.confidence.email =
      some (1 : ℚ) ∧
    (getCurrentLead emailDemoState).2.currentLead = emailDemoState.currentLead := by
  exact ⟨rfl, rfl, rfl, rfl, rfl⟩

/-! ## C4: phone extraction and normalization -/

/-- A successful bounded scan comes from a successful attempt at some
position. -/
theorem scanFrom_some {α : Type} (f : Nat → Option α) :
    ∀ (fuel i : Nat) (a : α), scanFrom f i fuel = some a → ∃ j, f j = some a := by
  intro fuel
  induction fuel with
  | zero =>
    intro i a h
    exact absurd h (by simp [scanFrom])
  | succ k ih =>
    intro i a h
    simp only [scanFrom] at h
    cases heq : f i with
    | some b =>
      rw [heq] at h
      have h' : some b = some a := h
      exact ⟨i, by rw [heq, h']⟩
    | none =>
      rw [heq] at h
      exact ih (i + 1) a h

/-- A first phone match is a consumed prefix of some suffix of the
text. -/
theorem firstPhoneMatch_spec (t m : String) (h : firstPhoneMatch t = some m) :
    ∃ s n, matchItems phonePattern s = some n ∧ m.data = s.take n := by
  unfold firstPhoneMatch at h
  obtain ⟨j, hj⟩ := scanFrom_some _ _ _ _ h
  rw [Option.map_eq_some'] at hj
  obtain ⟨n, hn, hm⟩ := hj
  refine ⟨t.data.drop j, n, hn, ?_⟩
  rw [← hm]

/-- If every piece of a pattern rejects the character `c`, a match
consumes no occurrence of `c`. -/
theorem matchItems_avoids (c : Char) :
    ∀ (items : List PItem) (cs : List Char) (n : Nat),
      (∀ it ∈ items, itemAvoids c it) → matchItems items cs = some n →
      c ∉ cs.take n := by
  intro items
  induction items with
  | nil =>
    intro cs n _ h
    obtain rfl : (0 : Nat) = n := by simpa [matchItems] using h
    simp
  | cons it rest ih =>
    intro cs n hall h
    have hhd := hall it (by simp)
    have htl : ∀ x ∈ rest, itemAvoids c x := fun x hx => hall x (by simp [hx])
    cases it with
    | opt p =>
      cases cs with
      | nil =>
        simp only [matchItems] at h
        exact ih [] n htl h
      | cons a as =>
        simp only [matchItems] at h
        split at h
        · rename_i hpa
          split at h
          · rename_i k heq
            obtain rfl : k + 1 = n := by simpa using h
            rw [List.take_succ_cons]
            intro hmem
            rcases List.mem_cons.mp hmem with h1 | h1
            · rw [h1] at hhd
              have : p a = false := hhd
              rw [hpa] at this
              exact absurd this (by simp)
            · exact ih as k htl heq h1
          · exact ih (a :: as) n htl h
        · exact ih (a :: as) n htl h
    | cls p k =>
      simp only [matchItems] at h
      split at h
      · rename_i hcond
        rw [Option.map_eq_some'] at h
        obtain ⟨j, hj, hn⟩ := h
        have hn' : n = k + j := by omega
        rw [hn', List.take_add]
        intro hmem
        rcases List.mem_append.mp hmem with h1 | h1
        · have hp := (List.all_eq_true.mp hcond.2) c h1
          have : p c = false := hhd
          rw [this] at hp
          exact absurd hp (by simp)
        · exact ih (cs.drop k) j htl hj h1
      · exact absurd h (by simp)

/-- If every fixed-length piece of a pattern only accepts digits, a
match consumes at least the sum of the fixed lengths in digits. -/
theorem matchItems_digits_ge :
    ∀ (items : List PItem) (cs : List Char) (n : Nat),
      (∀ it ∈ items, itemClsDigit it) → matchItems items cs = some n →
      (items.map itemDigitFloor).sum ≤
        ((cs.take n).filter (fun c => c.isDigit)).length := by
  intro items
  induction items with
  | nil =>
    intro cs n _ _
    simp
  | cons it rest ih =>
    intro cs n hall h
    have hhd := hall it (by simp)
    have htl : ∀ x ∈ rest, itemClsDigit x := fun x hx => hall x (by simp [hx])
    cases it with
    | opt p =>
      cases cs with
      | nil =>
        simp only [matchItems] at h
        simpa [itemDigitFloor] using ih [] n htl h
      | cons a as =>
        simp only [matchItems] at h
        have hbound : ∀ m', matchItems rest (a :: as) = some m' →
            (List.map itemDigitFloor (PItem.opt p :: rest)).sum ≤
              (((a :: as).take m').filter (fun c => c.isDigit)).length := by
          intro m' hm'
          simpa [itemDigitFloor] using ih (a :: as) m' htl hm'
        split at h
        · split at h
          · rename_i k heq
            obtain rfl : k + 1 = n := by simpa using h
            have hk := ih as k htl heq
            rw [List.take_succ_cons, List.filter_cons]
            simp only [List.map_cons, itemDigitFloor, List.sum_cons, Nat.zero_add]
            split
            · simp only [List.length_cons]
              omega
            · simpa [itemDigitFloor] using hk
          · exact hbound n h
        · exact hbound n h
    | cls p k =>
      simp only [matchItems] at h
      split at h
      · rename_i hcond
        rw [Option.map_eq_some'] at h
        obtain ⟨j, hj, hn⟩ := h
        have hn' : n = k + j := by omega
        have hk := ih (cs.drop k) j htl hj
        rw [hn', List.take_add, List.filter_append]
        have hfull : (cs.take k).filter (fun c => c.isDigit) = cs.take k := by
          apply List.filter_eq_self.mpr
          intro x hx
          exact hhd x ((List.all_eq_true.mp hcond.2) x hx)
        rw [hfull]
        simp only [List.map_cons, itemDigitFloor, List.sum_cons, List.length_append]
        have hlen : (cs.take k).length = k := hcond.1
        omega
      · exact absurd h (by simp)

/-- Shape of any string consumed by the phone pattern: a plus sign can
only be its first character, and it contains at least 10 digits. -/
theorem phonePattern_match_shape (s : List Char) (n : Nat)
    (h : matchItems phonePattern s = some n) :
    '+' ∉ (s.take n).drop 1 ∧
    10 ≤ ((s.take n).filter (fun c => c.isDigit)).length := by
  constructor
  · have htl : ∀ it ∈ phonePattern.tail, itemAvoids '+' it := by
      intro it hit
      simp only [phonePattern, List.tail_cons, List.mem_cons,
        List.not_mem_nil, or_false] at hit
      rcases hit with rfl | rfl | rfl | rfl | rfl | rfl | rfl | rfl | rfl
      all_goals rfl
    cases s with
    | nil =>
      rw [show matchItems phonePattern ([] : List Char) = none from rfl] at h
      exact absurd h (by simp)
    | cons a as =>
      rw [show phonePattern = .opt (fun c => c = '+') :: phonePattern.tail from rfl] at h
      simp only [matchItems] at h
      split at h
      · split at h
        · rename_i k heq
          obtain rfl : k + 1 = n := by simpa using h
          rw [List.take_succ_cons, List.drop_succ_cons, List.drop_zero]
          exact matchItems_avoids '+' phonePattern.tail as k htl heq
        · exact fun hm => matchItems_avoids '+' phonePattern.tail (a :: as) n htl h
            (List.mem_of_mem_drop hm)
      · exact fun hm => matchItems_avoids '+' phonePattern.tail (a :: as) n htl h
          (List.mem_of_mem_drop hm)
  · have hcd : ∀ it ∈ phonePattern, itemClsDigit it := by
      intro it hit
      simp only [phonePattern, List.mem_cons, List.not_mem_nil, or_false] at hit
      rcases hit with rfl | rfl | rfl | rfl | rfl | rfl | rfl | rfl | rfl | rfl
      all_goals first
        | trivial
        | exact fun c hc => hc
    have hsum := matchItems_digits_ge phonePattern s n hcd h
    rw [show ((phonePattern.map itemDigitFloor).sum) = 10 from rfl] at hsum
    exact hsum

/-- Dropping the plus-or-digit filter to a digits-only filter on a
plus-free list. -/
theorem filter_digitPlus_no_plus (l : List Char) (h : '+' ∉ l) :
    l.filter (fun c => c.isDigit || c = '+') = l.filter (fun c => c.isDigit) := by
  apply List.filter_congr
  intro x hx
  have hxp : x ≠ '+' := fun he => h (he ▸ hx)
  cases hd : x.isDigit
  · simp [hxp]
  · simp

/-- C4 normalization agreement: on any first match of the phone
pattern, the source's `normalizePhone` (which keeps every `+`) computes
exactly the claim's normalization (strip to digits with at most a
leading `+`; 11 digits starting with 1 gain `+`; exactly 10 digits gain
`+1`; anything else passes through as stripped). -/
theorem normalizePhone_eq_claimNormalize (t m : String)
    (h : firstPhoneMatch t = some m) :
    normalizePhone m = ((⟨claimNormalizePhone m.data⟩ : String)) := by
  obtain ⟨s, n, hmi, hmd⟩ := firstPhoneMatch_spec t m h
  obtain ⟨hplus, hdig⟩ := phonePattern_match_shape s n hmi
  rw [← hmd] at hplus hdig
  simp only [normalizePhone, claimNormalizePhone]
  cases hcase : m.data with
  | nil =>
    rw [hcase] at hdig
    simp at hdig
  | cons c tl =>
    rw [hcase] at hplus hdig
    simp only [List.drop_succ_cons, List.drop_zero] at hplus
    by_cases hc : c = '+'
    · subst hc
      have hstrip : stripNonDigitPlus ('+' :: tl) =
          '+' :: tl.filter (fun c => c.isDigit) := by
        unfold stripNonDigitPlus
        rw [List.filter_cons, if_pos (by simp), filter_digitPlus_no_plus tl hplus]
      have hclaim : claimStripPhone ('+' :: tl) =
          '+' :: tl.filter (fun c => c.isDigit) := by
        show (if ('+' : Char) = '+' then '+' :: tl.filter (fun c => c.isDigit)
              else ('+' :: tl).filter (fun c => c.isDigit)) =
          '+' :: tl.filter (fun c => c.isDigit)
        rw [if_pos rfl]
      rw [hstrip, hclaim]
      have hfilter_plus : List.filter (fun c => c.isDigit) ('+' :: tl) =
          List.filter (fun c => c.isDigit) tl := rfl
      rw [hfilter_plus] at hdig
      have hne1 : ¬(('+' :: tl.filter (fun c => c.isDigit)).head? = some '1') := by
        simp
      have hne2 : ¬(('+' :: tl.filter (fun c => c.isDigit)).length = 10) := by
        simp only [List.length_cons]
        omega
      rw [if_neg (fun hx => hne1 hx.2), if_neg hne2,
        if_neg (fun hx => hne1 hx.2.2), if_neg (fun hx => hne2 hx.1)]
    · have hnp : '+' ∉ c :: tl := by
        intro hm
        rcases List.mem_cons.mp hm with h1 | h1
        · exact hc h1.symm
        · exact hplus h1
      have hstrip : stripNonDigitPlus (c :: tl) =
          (c :: tl).filter (fun c => c.isDigit) := by
        unfold stripNonDigitPlus
        exact filter_digitPlus_no_plus (c :: tl) hnp
      have hclaim : claimStripPhone (c :: tl) =
          (c :: tl).filter (fun c => c.isDigit) := by
        show (if c = '+' then c :: tl.filter (fun c => c.isDigit)
              else (c :: tl).filter (fun c => c.isDigit)) =
          (c :: tl).filter (fun c => c.isDigit)
        rw [if_neg hc]
      rw [hstrip, hclaim]
      set d := (c :: tl).filter (fun c => c.isDigit) with hd
      have hall : (d.all fun c => c.isDigit) = true := by
        rw [List.all_eq_true]
        intro x hx
        rw [hd] at hx
        exact List.of_mem_filter hx
      by_cases h11 : d.length = 11 ∧ d.head? = some '1'
      · have hc1 : d.length = 11 ∧ (d.all fun c => c.isDigit) = true ∧
            d.head? = some '1' := ⟨h11.1, hall, h11.2⟩
        rw [if_pos h11, if_pos hc1]
      · have hc1 : ¬(d.length = 11 ∧ (d.all fun c => c.isDigit) = true ∧
            d.head? = some '1') := fun hx => h11 ⟨hx.1, hx.2.2⟩
        rw [if_neg h11, if_neg hc1]
        by_cases h10 : d.length = 10
        · have hc2 : d.length = 10 ∧ (d.all fun c => c.isDigit) = true := ⟨h10, hall⟩
          rw [if_pos h10, if_pos hc2]
        · have hc2 : ¬(d.length = 10 ∧ (d.all fun c => c.isDigit) = true) :=
            fun hx => h10 hx.1
          rw [if_neg h10, if_neg hc2]

/-- On a user message the accumulated lead becomes the old lead merged
with the built-in extraction updates (further merged with the custom
extractor outputs). -/
theorem processMessage_user_state (cfg : LeadExtractorConfig)
    (ex : LeadExtractor) (t : String) (ts : Option Nat) (md : Option Metadata) :
    (processMessage cfg ex ⟨Role.user, t, ts, md⟩).1.currentLead =
      mergeLead ex.currentLead
        (cfg.customExtractors.foldl (fun u f => assignPartial u (f t))
          { name := extractName t, email := firstEmailMatch t,
            phone := (firstPhoneMatch t).map normalizePhone,
            company := extractCompany t, notes := none }) := by
  simp only [processMessage]
  rw [if_neg (by simp)]
  split
  · rfl
  · rfl

/-- C4: for every user message whose text matches the phone pattern,
the accumulated phone is the normalization of the first match, and that
normalization agrees with the claim's description (strip to digits with
at most a leading plus; 11 digits starting with 1 get `+`; exactly 10
digits get `+1`; anything else passes through); "My number is
4155551234" stores "+14155551234", and "I live in zip code 94043"
matches no phone at all (so in particular never a 5-digit phone). -/
theorem phone_first_match_normalized (cfg : LeadExtractorConfig)
    (ex : LeadExtractor) (t : String) (ts : Option Nat) (md : Option Metadata)
    (m : String) (hcust : cfg.customExtractors = [])
    (hmatch : firstPhoneMatch t = some m) :
    (processMessage cfg ex ⟨Role.user, t, ts, md⟩).1.currentLead.phone =
      some (normalizePhone m) ∧
    normalizePhone m = ((⟨claimNormalizePhone m.data⟩ : String)) ∧
    (processMessage defaultLeadExtractorConfig freshExtractor
        ⟨Role.user, ("My number is 4155551234" : String), none, none⟩).1.currentLead.phone =
      some ("+14155551234" : String) ∧
    firstPhoneMatch ("I live in zip code 94043" : String) = none ∧
    (processMessage defaultLeadExtractorConfig freshExtractor
        ⟨Role.user, ("I live in zip code 94043" : String), none, none⟩).1.currentLead.phone =
      none := by
  refine ⟨?_, normalizePhone_eq_claimNormalize t m hmatch, rfl, rfl, rfl⟩
  rw [processMessage_user_state, hcust]
  simp [mergeLead, hmatch]

/-- C4 witness: the first match in "My number is 4155551234" is
" 4155551234" (the tolerant pattern accepts a leading separator), which
normalizes to "+14155551234". -/
theorem phone_first_match_normalized_witness :
    (processMessage defaultLeadExtractorConfig freshExtractor
        ⟨Role.user, ("My number is 4155551234" : String), none, none⟩).1.currentLead.phone =
      some (normalizePhone (" 4155551234" : String)) ∧
    normalizePhone (" 4155551234" : String) =
      ((⟨claimNormalizePhone (" 4155551234" : String).data⟩ : String)) := by
  have h := phone_first_match_normalized defaultLeadExtractorConfig freshExtractor
    ("My number is 4155551234" : String) none none (" 4155551234" : String) rfl rfl
  exact ⟨h.1, h.2.1⟩

end VoxKit
